import Mathlib

/-!
# The charm store HTTP server (`src/server.go`) and its configuration validator

A shallow embedding of the request handlers of `src/server.go`
(`serveInfo`, `serveCharm`, `serveStats`, with `statsEnabled` and
`charmStatsKey`) and theorems about them.

Modelling conventions.

* Go strings are Lean `String`s.  The handlers only search for and cut at the
  ASCII bytes `/`, `:` and `*`, so byte offsets and character offsets agree.
* The store is an explicit state machine: every store method takes the store
  state and returns its result with the next state.  The handlers never look
  inside the state, so a store may answer successive calls in any way.
* `go s.store.IncCounter(key)` only spawns a goroutine; the handler records the
  spawn in its call log and does not wait for it.
* A panic is the result `none`.
* `log.Printf` is not modelled.
-/

set_option autoImplicit false

namespace Charmstore

/-! ## The parts of the Go library the handlers use -/

namespace strings

/-- Go `strings.HasPrefix(s, p)`. -/
def HasPrefix (s p : String) : Bool :=
  p.data.isPrefixOf s.data

/-- Position of the first `c` in a list of characters, counted from `i`;
`-1` when there is none. -/
def indexFrom (c : Char) : List Char → Nat → Int
  | [], _ => -1
  | x :: xs, i => if x = c then (i : Int) else indexFrom c xs (i + 1)

/-- Go `strings.Index(s, sep)` for a separator of one ASCII character: the
offset of its first occurrence, `-1` when absent. -/
def Index (s : String) (c : Char) : Int :=
  indexFrom c s.data 0

/-- The pieces of a list of characters between the occurrences of `sep`. -/
def splitChars (sep : Char) : List Char → List (List Char)
  | [] => [[]]
  | c :: cs =>
    if c = sep then [] :: splitChars sep cs
    else
      match splitChars sep cs with
      | [] => [[c]]
      | seg :: rest => (c :: seg) :: rest

/-- Go `strings.Split(s, sep)` for a separator of one ASCII character: all
substrings between the separators; `[s]` when `s` has none (so `[""]` for the
empty string). -/
def Split (s : String) (sep : Char) : List String :=
  (splitChars sep s.data).map String.mk

/-- Go `strings.Join(a, sep)`. -/
def Join : List String → String → String
  | [], _ => ""
  | [a], _ => a
  | a :: b :: rest, sep => a ++ sep ++ Join (b :: rest) sep

end strings

/-- Go slice expression `s[n:]` on a string. -/
def sliceFrom (s : String) (n : Nat) : String :=
  String.mk (s.data.drop n)

/-- Go `url.Values`: each key maps to the list of values supplied for it, in
the order supplied (no values for a key that was not supplied). -/
abbrev Values := String → List String

/-- Go `url.Values.Get`: the first value of the key, `""` when it has none. -/
def Values.Get (v : Values) (key : String) : String :=
  match v key with
  | [] => ""
  | x :: _ => x

/-- The part of `*http.Request` the handlers read: `r.URL.Path` and the form
that `r.ParseForm()` builds. -/
structure Request where
  Path : String
  Form : Values

/-- A JSON value as it occurs in the members of a marshalled `responseCharm`. -/
inductive JValue where
  | num (n : Int)
  | str (s : String)
  | strs (ss : List String)
  deriving DecidableEq

/-- One chunk handed to `ResponseWriter.Write`. -/
inductive Body where
  | text (s : String)
  | json (members : List (String × List (String × JValue)))
  | bytes (data : List Nat)
  deriving DecidableEq

/-- The observable state of an `http.ResponseWriter`.  `status` is the status
line once it has been sent; `broken` says that the connection refuses writes. -/
structure ResponseWriter where
  status : Option Nat
  header : List (String × String)
  body : List Body
  broken : Bool
  deriving DecidableEq

namespace ResponseWriter

/-- The writer a handler receives. -/
def fresh (broken : Bool) : ResponseWriter :=
  { status := none, header := [], body := [], broken := broken }

/-- Go `w.WriteHeader(code)`: the first status wins. -/
def WriteHeader (w : ResponseWriter) (code : Nat) : ResponseWriter :=
  match w.status with
  | none => { w with status := some code }
  | some _ => w

/-- Go `w.Header().Set(k, v)`; headers set after the status line are not
sent. -/
def Set (w : ResponseWriter) (k v : String) : ResponseWriter :=
  match w.status with
  | none => { w with header := w.header.filter (fun p => p.1 ≠ k) ++ [(k, v)] }
  | some _ => w

/-- Go `w.Write(data)`: sends the status line (200 unless set), then the data;
the flag returned is `err != nil`. -/
def Write (w : ResponseWriter) (data : Body) : ResponseWriter × Bool :=
  let w1 := w.WriteHeader 200
  if w1.broken then (w1, true) else ({ w1 with body := w1.body ++ [data] }, false)

end ResponseWriter

/-! ## The store -/

/-- A parsed charm URL (`charm.URL`). -/
structure URL where
  Schema : String
  User : String
  Series : String
  Name : String
  Revision : Int
  deriving DecidableEq

/-- What the handlers read of a `*CharmInfo`. -/
structure CharmInfo where
  Revision : Int
  BundleSha256 : String
  BundleSize : Int
  deriving DecidableEq

/-- An error returned by the store: the sentinel `ErrNotFound`, or any other
error with its text. -/
inductive StoreError where
  | ErrNotFound
  | other (msg : String)
  deriving DecidableEq

/-- The store behind the server, as a state machine over `σ`, together with
`charm.ParseURL`, whose errors are made in package `charm` and so are never the
sentinel `ErrNotFound` of package `store`. -/
structure Store (σ : Type) where
  notFoundText : String
  ParseURL : String → Except String URL
  CharmInfo : σ → URL → Except StoreError Charmstore.CharmInfo × σ
  OpenCharm : σ → URL → Except StoreError (Charmstore.CharmInfo × List Nat) × σ
  SumCounter : σ → List String → Bool → Except StoreError Int × σ

/-- Go `err.Error()` for a store error. -/
def StoreError.Error {σ : Type} (s : Store σ) : StoreError → String
  | .ErrNotFound => s.notFoundText
  | .other msg => msg

/-- A call the handler makes on the store (or on the reader the store handed
out), in program order.  `IncCounter` is the spawn of the goroutine. -/
inductive Call where
  | CharmInfo (curl : URL)
  | OpenCharm (curl : URL)
  | IncCounter (key : List String)
  | SumCounter (key : List String) (isPrefix : Bool)
  | Close
  deriving DecidableEq

/-- What a handler leaves behind: the response, the store state and the calls
it made. -/
structure Outcome (σ : Type) where
  w : ResponseWriter
  st : σ
  calls : List Call

/-! ## `serveStats` -/

/-- Lines 177-191 of `serveStats`: sum the counter and write the reply. -/
def sumAndReply {σ : Type} (s : Store σ) (w : ResponseWriter) (st : σ)
    (key : List String) (isPrefix : Bool) : Outcome σ :=
  match s.SumCounter st key isPrefix with
  | (.error _, st1) =>
    { w := w.WriteHeader 500, st := st1, calls := [Call.SumCounter key isPrefix] }
  | (.ok sum, st1) =>
    let data := toString sum
    let w1 := w.Set "Content-Type" "text/plain"
    let w2 := w1.Set "Content-Length" (toString data.length)
    match w2.Write (Body.text data) with
    | (w3, true) =>
      { w := w3.WriteHeader 500, st := st1, calls := [Call.SumCounter key isPrefix] }
    | (w3, false) =>
      { w := w3, st := st1, calls := [Call.SumCounter key isPrefix] }

/-- The handler `Server.serveStats`. -/
def serveStats {σ : Type} (s : Store σ) (w : ResponseWriter) (r : Request) (st : σ) :
    Option (Outcome σ) :=
  let dir := "/stats/counter/"
  if !strings.HasPrefix r.Path dir then none
  else
    let base := sliceFrom r.Path dir.length
    if strings.Index base '/' > 0 then
      some { w := w.WriteHeader 404, st := st, calls := [] }
    else if base = "" then
      some { w := w.WriteHeader 403, st := st, calls := [] }
    else
      let key := strings.Split base ':'
      match key.getLast? with
      | none => none
      | some last =>
        if last = "*" then
          let key := key.dropLast
          if key.length = 0 then
            some { w := w.WriteHeader 403, st := st, calls := [] }
          else some (sumAndReply s w st key true)
        else some (sumAndReply s w st key false)

/-- Whether a call is the spawn of `IncCounter`. -/
def Call.isIncCounter : Call → Bool
  | .IncCounter _ => true
  | _ => false

/-! ## `statsEnabled` and `charmStatsKey` -/

/-- The function `statsEnabled`: counting is on unless the first value of the
form field `stats` is `"0"`. -/
def statsEnabled (req : Request) : Bool :=
  req.Form.Get "stats" != "0"

/-- The function `charmStatsKey`. -/
def charmStatsKey (curl : URL) (kind : String) : List String :=
  if curl.User = "" then [kind, curl.Series, curl.Name]
  else [kind, curl.Series, curl.Name, curl.User]

/-! ## `serveInfo` -/

/-- The struct `responseCharm`. -/
structure responseCharm where
  Revision : Int
  Sha256 : String
  Errors : List String
  Warnings : List String
  deriving DecidableEq

/-- The members `json.Marshal` writes for a `responseCharm`, following the
struct tags: `revision` always, the other three only when non-empty
(`omitempty`). -/
def responseCharm.marshal (c : responseCharm) : List (String × JValue) :=
  [("revision", JValue.num c.Revision)]
    ++ (if c.Sha256 = "" then [] else [("sha256", JValue.str c.Sha256)])
    ++ (if c.Errors.length = 0 then [] else [("errors", JValue.strs c.Errors)])
    ++ (if c.Warnings.length = 0 then [] else [("warnings", JValue.strs c.Warnings)])

/-- Go map assignment `m[k] = v` on a map kept as a list of entries with
distinct keys: an existing entry is replaced, a new one is added. -/
def mapSet {β : Type} (m : List (String × β)) (k : String) (v : β) : List (String × β) :=
  match m with
  | [] => [(k, v)]
  | (k1, v1) :: rest => if k1 = k then (k, v) :: rest else (k1, v1) :: mapSet rest k v

/-- The variables that live across the iterations of the loop of `serveInfo`:
the map `response`, with the store state and the calls made so far. -/
structure InfoLoop (σ : Type) where
  response : List (String × responseCharm)
  st : σ
  calls : List Call

/-- One iteration of the loop of `serveInfo` (lines 85-105), for the
identifier `url`. -/
def serveInfoEntry {σ : Type} (s : Store σ) (r : Request) (acc : InfoLoop σ) (url : String) :
    InfoLoop σ :=
  let c : responseCharm := { Revision := 0, Sha256 := "", Errors := [], Warnings := [] }
  let (c, skey, st1, made) : responseCharm × Option (List String) × σ × List Call :=
    match s.ParseURL url with
    | .error msg => ({ c with Errors := c.Errors ++ [msg] }, none, acc.st, [])
    | .ok curl =>
      match s.CharmInfo acc.st curl with
      | (.ok info, st1) =>
        ({ c with Sha256 := info.BundleSha256, Revision := info.Revision },
          some (charmStatsKey curl "charm-info"), st1, [Call.CharmInfo curl])
      | (.error err, st1) =>
        ({ c with Errors := c.Errors ++ [StoreError.Error s err] },
          if err = StoreError.ErrNotFound then some (charmStatsKey curl "charm-missing") else none,
          st1, [Call.CharmInfo curl])
  let spawned : List Call :=
    match skey with
    | some key => if statsEnabled r then [Call.IncCounter key] else []
    | none => []
  { response := mapSet acc.response url c, st := st1, calls := acc.calls ++ made ++ spawned }

/-- The loop of `serveInfo` over `r.Form["charms"]`. -/
def serveInfoLoop {σ : Type} (s : Store σ) (r : Request) (st : σ) : InfoLoop σ :=
  (r.Form "charms").foldl (serveInfoEntry s r) { response := [], st := st, calls := [] }

/-- Go `json.Marshal(response)` for the map of `serveInfo`: an object with one
member per map entry (the order of the members is not modelled). -/
def marshalResponse (response : List (String × responseCharm)) :
    List (String × List (String × JValue)) :=
  response.map (fun e => (e.1, e.2.marshal))

/-- The handler `Server.serveInfo`. -/
def serveInfo {σ : Type} (s : Store σ) (w : ResponseWriter) (r : Request) (st : σ) :
    Outcome σ :=
  if r.Path ≠ "/charm-info" then
    { w := w.WriteHeader 404, st := st, calls := [] }
  else
    let fin := serveInfoLoop s r st
    let data := Body.json (marshalResponse fin.response)
    let w1 := w.Set "Content-Type" "application/json"
    match w1.Write data with
    | (w2, true) => { w := w2.WriteHeader 500, st := fin.st, calls := fin.calls }
    | (w2, false) => { w := w2, st := fin.st, calls := fin.calls }

/-! ## `serveCharm` -/

/-- Go `io.Copy(w, rc)`: nothing is written for an empty stream. -/
def ioCopy (w : ResponseWriter) (rc : List Nat) : ResponseWriter :=
  match rc with
  | [] => w
  | _ :: _ => (w.Write (Body.bytes rc)).1

/-- The handler `Server.serveCharm`. -/
def serveCharm {σ : Type} (s : Store σ) (w : ResponseWriter) (r : Request) (st : σ) :
    Option (Outcome σ) :=
  if !strings.HasPrefix r.Path "/charm/" then none
  else
    match s.ParseURL ("cs:" ++ sliceFrom r.Path "/charm/".length) with
    | .error _ => some { w := w.WriteHeader 404, st := st, calls := [] }
    | .ok curl =>
      match s.OpenCharm st curl with
      | (.error err, st1) =>
        if err = StoreError.ErrNotFound then
          some { w := w.WriteHeader 404, st := st1, calls := [Call.OpenCharm curl] }
        else
          some { w := w.WriteHeader 500, st := st1, calls := [Call.OpenCharm curl] }
      | (.ok (info, rc), st1) =>
        let spawned : List Call :=
          if statsEnabled r then [Call.IncCounter (charmStatsKey curl "charm-bundle")] else []
        let w1 := w.Set "Connection" "close"
        let w2 := w1.Set "Content-Type" "application/octet-stream"
        let w3 := w2.Set "Content-Length" (toString info.BundleSize)
        let w4 := ioCopy w3 rc
        some { w := w4, st := st1, calls := [Call.OpenCharm curl] ++ spawned ++ [Call.Close] }

/-! ## The counter key on the wire -/

/-- The entity `CounterKey` of the data model: the segments and the wildcard
flag. -/
structure CounterKey where
  segments : List String
  wildcard : Bool
  deriving DecidableEq

/-- Modelled from the spec: the wire form of a counter key, "colon-joined
segments, optional trailing `*`".  The repository has no encoder (clients write
the path); the segments are joined with `:` and `:*` is appended when the
wildcard flag is set. -/
def CounterKey.wire (k : CounterKey) : String :=
  strings.Join k.segments ":" ++ (if k.wildcard then ":*" else "")

/-! ## The configuration validator -/

/-- Modelled from the spec: a configuration document, as the list of its
top-level keys with the text of their values.  Package `config` itself is not
among the sources (only `config_test.go` is); the keys are those of the test
document. -/
abbrev Document := List (String × String)

/-- Modelled from the spec: the text a key has in the document; a key that is
missing has the empty text, which decodes to the zero value of the field. -/
def Document.value (d : Document) (key : String) : String :=
  match d with
  | [] => ""
  | (k, v) :: rest => if k = key then v else Document.value rest key

/-- Modelled from the spec: the two kinds of error of reading a document,
"a decode-time error distinct from a missing-field error".  The text of a
decode error is not given by the spec; the key of the malformed field is kept.
The missing-field error carries its message.  (The error values of package
`config` are missing from the sources.) -/
inductive ConfigError where
  | decode (key : String)
  | missing (message : String)
  deriving DecidableEq

/-- Modelled from the spec: the format validation of the typed fields
("decoded with their own format validation"): numbers, durations written as
human strings like `1h` or `500ms`, public keys, key pairs, and the enumerated
auth mode.  The spec names the formats without defining them, so the parsers
are a parameter; `none` is a malformed value. -/
structure Formats where
  number : String → Option Int
  duration : String → Option Nat
  publicKey : String → Option String
  keyPair : String → Option (String × String)
  authMode : String → Option String

/-- Modelled from the spec: the entity `Configuration`, with the fields of the
document of section 6 (the type `config.Config` is missing from the sources).
Durations are in nanoseconds; a pointer field is an `Option`. -/
structure Config where
  AuditLogFile : String
  AuditLogMaxSize : Int
  AuditLogMaxAge : Int
  MongoURL : String
  APIAddr : String
  AuthUsername : String
  AuthPassword : String
  IdentityLocation : String
  IdentityPublicKey : Option String
  IdentityAPIURL : String
  TermsPublicKey : Option String
  TermsLocation : String
  AgentUsername : String
  AgentKey : Option (String × String)
  StatsCacheMaxAge : Nat
  SearchCacheMaxAge : Nat
  RequestTimeout : Nat
  MaxMgoSessions : Int
  BlobStore : String
  SwiftAuthURL : String
  SwiftUsername : String
  SwiftSecret : String
  SwiftBucket : String
  SwiftRegion : String
  SwiftTenant : String
  SwiftAuthMode : Option String
  LoggingConfig : String
  deriving DecidableEq

/-- Modelled from the spec: the typed fields of the document, each key with the
test that its text is well formed (the decoder of package `config` is missing
from the sources). -/
def typedChecks (F : Formats) : List (String × (String → Bool)) :=
  [ ("audit-log-max-size", fun raw => (F.number raw).isSome),
    ("audit-log-max-age", fun raw => (F.number raw).isSome),
    ("identity-public-key", fun raw => (F.publicKey raw).isSome),
    ("terms-public-key", fun raw => (F.publicKey raw).isSome),
    ("agent-key", fun raw => (F.keyPair raw).isSome),
    ("stats-cache-max-age", fun raw => (F.duration raw).isSome),
    ("search-cache-max-age", fun raw => (F.duration raw).isSome),
    ("request-timeout", fun raw => (F.duration raw).isSome),
    ("max-mgo-sessions", fun raw => (F.number raw).isSome),
    ("swift-authmode", fun raw => (F.authMode raw).isSome) ]

/-- Modelled from the spec: the first typed field of the document whose value
is given and malformed, if there is one. -/
def malformedField (F : Formats) (d : Document) : Option String :=
  ((typedChecks F).find? (fun f => decide (d.value f.1 ≠ "") && !f.2 (d.value f.1))).map
    Prod.fst

/-- Modelled from the spec: the value of a typed field: nothing when the key is
not given, else what its parser makes of the text. -/
def typedValue {α : Type} (parse : String → Option α) (raw : String) : Option α :=
  if raw = "" then none else parse raw

/-- Modelled from the spec: the configuration a document with well-formed
typed values decodes to. -/
def build (F : Formats) (d : Document) : Config :=
  { AuditLogFile := d.value "audit-log-file"
    AuditLogMaxSize := (typedValue F.number (d.value "audit-log-max-size")).getD 0
    AuditLogMaxAge := (typedValue F.number (d.value "audit-log-max-age")).getD 0
    MongoURL := d.value "mongo-url"
    APIAddr := d.value "api-addr"
    AuthUsername := d.value "auth-username"
    AuthPassword := d.value "auth-password"
    IdentityLocation := d.value "identity-location"
    IdentityPublicKey := typedValue F.publicKey (d.value "identity-public-key")
    IdentityAPIURL := d.value "identity-api-url"
    TermsPublicKey := typedValue F.publicKey (d.value "terms-public-key")
    TermsLocation := d.value "terms-location"
    AgentUsername := d.value "agent-username"
    AgentKey := typedValue F.keyPair (d.value "agent-key")
    StatsCacheMaxAge := (typedValue F.duration (d.value "stats-cache-max-age")).getD 0
    SearchCacheMaxAge := (typedValue F.duration (d.value "search-cache-max-age")).getD 0
    RequestTimeout := (typedValue F.duration (d.value "request-timeout")).getD 0
    MaxMgoSessions := (typedValue F.number (d.value "max-mgo-sessions")).getD 0
    BlobStore := d.value "blobstore"
    SwiftAuthURL := d.value "swift-auth-url"
    SwiftUsername := d.value "swift-username"
    SwiftSecret := d.value "swift-secret"
    SwiftBucket := d.value "swift-bucket"
    SwiftRegion := d.value "swift-region"
    SwiftTenant := d.value "swift-tenant"
    SwiftAuthMode := typedValue F.authMode (d.value "swift-authmode")
    LoggingConfig := d.value "logging-config" }

/-- Modelled from the spec: decoding of the document into the configuration:
"a malformed value is a decode-time error", otherwise the configuration is
built (the decoder of package `config` is missing from the sources). -/
def decode (F : Formats) (d : Document) : Except ConfigError Config :=
  match malformedField F d with
  | some key => .error (ConfigError.decode key)
  | none => .ok (build F d)

/-- Modelled from the spec: the table of required fields of section 4.3 and
design note 3, one row per field: the name reported, whether the field is
present ("decodes to a non-zero/non-empty value", a nil pointer being absent)
and whether the row applies (the swift rows only when the backend selector is
`swift`).  The validator of package `config` is missing from the sources. -/
def requiredTable (c : Config) : List (String × Bool × Bool) :=
  let swift : Bool := c.BlobStore = "swift"
  [ ("mongo-url", c.MongoURL ≠ "", true),
    ("api-addr", c.APIAddr ≠ "", true),
    ("auth-username", c.AuthUsername ≠ "", true),
    ("auth-password", c.AuthPassword ≠ "", true),
    ("swift-auth-url", c.SwiftAuthURL ≠ "", swift),
    ("swift-username", c.SwiftUsername ≠ "", swift),
    ("swift-secret", c.SwiftSecret ≠ "", swift),
    ("swift-bucket", c.SwiftBucket ≠ "", swift),
    ("swift-region", c.SwiftRegion ≠ "", swift),
    ("swift-tenant", c.SwiftTenant ≠ "", swift),
    ("swift-auth-mode", c.SwiftAuthMode.isSome, swift) ]

/-- Modelled from the spec: the names of the required fields that are absent,
the whole table being evaluated before anything is reported (the validator of
package `config` is missing from the sources). -/
def missingFields (c : Config) : List String :=
  ((requiredTable c).filter (fun row => row.2.2 && !row.2.1)).map (fun row => row.1)

/-- Modelled from the spec: validation of a decoded configuration, "a single
aggregate error listing every missing field name", in the format
`missing fields f1, f2, ... in config file` (the validator of package `config`
is missing from the sources). -/
def validate (c : Config) : Except ConfigError Unit :=
  if (missingFields c).length = 0 then .ok ()
  else .error (ConfigError.missing
    ("missing fields " ++ strings.Join (missingFields c) ", " ++ " in config file"))

/-- Modelled from the spec: the second stage of `config.Read`, decode and then
validate: a decode error short-circuits validation, and a configuration is
returned only when validation passes (the function is missing from the
sources). -/
def readDocument (F : Formats) (d : Document) : Except ConfigError Config :=
  match decode F d with
  | .error e => .error e
  | .ok c =>
    match validate c with
    | .error e => .error e
    | .ok _ => .ok c

/-- Modelled from the spec: the unconditional required fields in declared
order, each name with the document key it is decoded from. -/
def unconditionalFields : List (String × String) :=
  [("mongo-url", "mongo-url"), ("api-addr", "api-addr"),
    ("auth-username", "auth-username"), ("auth-password", "auth-password")]

/-- Modelled from the spec: the fields required when the backend selector is
`swift`, in declared order, each name with the document key it is decoded from
(the test document spells the key of the last one `swift-authmode`). -/
def swiftFields : List (String × String) :=
  [("swift-auth-url", "swift-auth-url"), ("swift-username", "swift-username"),
    ("swift-secret", "swift-secret"), ("swift-bucket", "swift-bucket"),
    ("swift-region", "swift-region"), ("swift-tenant", "swift-tenant"),
    ("swift-auth-mode", "swift-authmode")]

/-- Modelled from the spec: the names of the required fields that the document
leaves absent, read off the document itself: the unconditional fields, followed
only when `blobstore` is `swift` by the swift fields, each kept when its key
has no non-empty value. -/
def absentRequired (d : Document) : List String :=
  ((unconditionalFields ++ (if d.value "blobstore" = "swift" then swiftFields else [])).filter
    (fun f => d.value f.2 = "")).map Prod.fst

/-! ## Concrete stores and requests -/

/-- A parser that knows two identifiers, for concrete runs. -/
def demoParseURL (url : String) : Except String URL :=
  if url = "cs:precise/wordpress" then
    .ok { Schema := "cs", User := "", Series := "precise", Name := "wordpress", Revision := -1 }
  else if url = "cs:~joe/precise/wordpress" then
    .ok { Schema := "cs", User := "joe", Series := "precise", Name := "wordpress", Revision := -1 }
  else .error "invalid charm url"

/-- A store that holds one charm per known identifier, for concrete runs. -/
def demoStore : Store Unit :=
  { notFoundText := "entry not found"
    ParseURL := demoParseURL
    CharmInfo := fun st _ =>
      (.ok { Revision := 7, BundleSha256 := "c0ffee", BundleSize := 3 }, st)
    OpenCharm := fun st _ =>
      (.ok ({ Revision := 7, BundleSha256 := "c0ffee", BundleSize := 3 }, [1, 2, 3]), st)
    SumCounter := fun st _ _ => (.ok 0, st) }

/-- Parsers that know the typed values of the test document, for concrete
runs. -/
def demoFormats : Formats :=
  { number := fun raw => if raw = "500" then some 500 else if raw = "1" then some 1
      else if raw = "10" then some 10 else none
    duration := fun raw => if raw = "1h" then some 3600000000000
      else if raw = "15m" then some 900000000000
      else if raw = "500ms" then some 500000000 else none
    publicKey := fun raw => if raw.length = 44 then some raw else none
    keyPair := fun raw => if raw.length = 88 then some (raw, raw) else none
    authMode := fun raw => if raw = "userpass" then some raw else none }

/-- A request form without any field. -/
def noForm : Values := fun _ => []

/-- A request form with the given values of `charms` and of `stats`. -/
def formOf (charms stats : List String) : Values :=
  fun key => if key = "charms" then charms else if key = "stats" then stats else []

/-! ## Facts about the string functions -/

theorem indexFrom_of_not_mem (c : Char) (l : List Char) (i : Nat) (h : c ∉ l) :
    strings.indexFrom c l i = -1 := by
  induction l generalizing i with
  | nil => rfl
  | cons x xs ih =>
    have hx : x ≠ c := fun e => h (by simp [e])
    have hxs : c ∉ xs := fun e => h (by simp [e])
    simp [strings.indexFrom, hx, ih _ hxs]

theorem splitChars_ne_nil (sep : Char) (l : List Char) : strings.splitChars sep l ≠ [] := by
  induction l with
  | nil => simp [strings.splitChars]
  | cons c cs ih =>
    unfold strings.splitChars
    split
    · simp
    · split <;> simp

theorem splitChars_of_not_mem (sep : Char) (l : List Char) (h : sep ∉ l) :
    strings.splitChars sep l = [l] := by
  induction l with
  | nil => rfl
  | cons c cs ih =>
    have hc : c ≠ sep := fun e => h (by simp [e])
    have hcs : sep ∉ cs := fun e => h (by simp [e])
    simp [strings.splitChars, hc, ih hcs]

theorem splitChars_append_sep (sep : Char) (l r : List Char) (h : sep ∉ l) :
    strings.splitChars sep (l ++ sep :: r) = l :: strings.splitChars sep r := by
  induction l with
  | nil => simp [strings.splitChars]
  | cons c cs ih =>
    have hc : c ≠ sep := fun e => h (by simp [e])
    have hcs : sep ∉ cs := fun e => h (by simp [e])
    simp [strings.splitChars, hc, ih hcs]

/-- Splitting gives back the single piece only for that piece itself. -/
theorem splitChars_eq_singleton (sep : Char) (l t : List Char)
    (h : strings.splitChars sep l = [t]) : l = t := by
  induction l generalizing t with
  | nil => simpa [strings.splitChars] using h
  | cons c cs ih =>
    unfold strings.splitChars at h
    split at h
    · have := splitChars_ne_nil sep cs
      simp at h
      exact absurd h.2 this
    · split at h
      · rename_i e
        exact absurd e (splitChars_ne_nil sep cs)
      · rename_i seg rest e
        simp at h
        obtain ⟨h1, h2⟩ := h
        subst h2
        rw [ih seg e]
        exact h1

theorem split_join (segs : List String) (hne : segs ≠ [])
    (h : ∀ seg ∈ segs, ':' ∉ seg.data) : strings.Split (strings.Join segs ":") ':' = segs := by
  induction segs with
  | nil => exact absurd rfl hne
  | cons a rest ih =>
    cases rest with
    | nil =>
      have ha : ':' ∉ a.data := h a (by simp)
      simp [strings.Join, strings.Split, splitChars_of_not_mem _ _ ha]
    | cons b rest =>
      have ha : ':' ∉ a.data := h a (by simp)
      have ih1 := ih (by simp) (fun seg hs => h seg (List.mem_cons_of_mem _ hs))
      have hd : (strings.Join (a :: b :: rest) ":").data
          = a.data ++ ':' :: (strings.Join (b :: rest) ":").data := by
        simp [strings.Join]
      unfold strings.Split at ih1 ⊢
      rw [hd, splitChars_append_sep _ _ _ ha, List.map_cons, ih1]

theorem join_not_mem (c : Char) (hc : c ≠ ':') (segs : List String)
    (h : ∀ seg ∈ segs, c ∉ seg.data) : c ∉ (strings.Join segs ":").data := by
  induction segs with
  | nil => simp [strings.Join]
  | cons a rest ih =>
    cases rest with
    | nil => simpa [strings.Join] using h a (by simp)
    | cons b rest =>
      have ha : c ∉ a.data := h a (by simp)
      have ih1 := ih (fun seg hs => h seg (List.mem_cons_of_mem _ hs))
      simp only [strings.Join, String.data_append, List.mem_append, not_or]
      exact ⟨⟨ha, by simpa using hc⟩, ih1⟩

theorem join_append_star (segs : List String) (hne : segs ≠ []) :
    strings.Join (segs ++ ["*"]) ":" = strings.Join segs ":" ++ ":*" := by
  induction segs with
  | nil => exact absurd rfl hne
  | cons a rest ih =>
    cases rest with
    | nil => simp [strings.Join, String.append_assoc]
    | cons b rest =>
      have ih1 := ih (by simp)
      simp only [List.cons_append] at ih1 ⊢
      simp only [strings.Join, ih1, String.append_assoc]

theorem splitChars_no_sep (sep : Char) (l : List Char) :
    ∀ seg ∈ strings.splitChars sep l, sep ∉ seg := by
  induction l with
  | nil => simp [strings.splitChars]
  | cons c cs ih =>
    unfold strings.splitChars
    split
    · intro seg hs
      rcases List.mem_cons.mp hs with h | h
      · rw [h]; simp
      · exact ih seg h
    · rename_i hc
      split
      · intro seg hs
        simp at hs
        rw [hs]
        simpa using fun e => hc e.symm
      · rename_i seg0 rest e
        rw [e] at ih
        intro seg hs
        rcases List.mem_cons.mp hs with h | h
        · rw [h]
          have := ih seg0 (by simp)
          simp only [List.mem_cons, not_or]
          exact ⟨fun e => hc e.symm, this⟩
        · exact ih seg (List.mem_cons_of_mem _ h)

theorem join_cons_data (a : String) (tl : List String) (hne : tl ≠ []) :
    (strings.Join (a :: tl) ":").data = a.data ++ ':' :: (strings.Join tl ":").data := by
  cases tl with
  | nil => exact absurd rfl hne
  | cons b rest => simp [strings.Join]

theorem join_splitChars (l : List Char) :
    (strings.Join ((strings.splitChars ':' l).map String.mk) ":").data = l := by
  induction l with
  | nil => simp [strings.splitChars, strings.Join]
  | cons c cs ih =>
    unfold strings.splitChars
    split
    · rename_i hc
      rw [List.map_cons, join_cons_data _ _ (by simpa using splitChars_ne_nil ':' cs), ih, hc]
      rfl
    · split
      · rename_i e
        exact absurd e (splitChars_ne_nil ':' cs)
      · rename_i seg rest e
        rw [e] at ih
        cases rest with
        | nil =>
          simp only [List.map_cons, List.map_nil, strings.Join] at ih ⊢
          rw [← ih]
        | cons b rest =>
          rw [List.map_cons, join_cons_data _ _ (by simp)]
          rw [List.map_cons, join_cons_data _ _ (by simp)] at ih
          rw [← ih]
          rfl

/-- Every string is the join at `:` of the pieces `strings.Split` cuts it
into, and none of the pieces contains a `:`. -/
theorem join_split (suffix : String) :
    strings.Join (strings.Split suffix ':') ":" = suffix ∧
      ∀ seg ∈ strings.Split suffix ':', ':' ∉ seg.data := by
  constructor
  · have := join_splitChars suffix.data
    unfold strings.Split
    exact String.ext this
  · intro seg hs
    unfold strings.Split at hs
    obtain ⟨cs, hcs, rfl⟩ := List.mem_map.mp hs
    exact splitChars_no_sep ':' suffix.data cs hcs

theorem hasPrefix_append (p t : String) : strings.HasPrefix (p ++ t) p = true := by
  simp [strings.HasPrefix, List.isPrefixOf_iff_prefix]

theorem sliceFrom_append (p t : String) : sliceFrom (p ++ t) p.length = t := by
  have h : (p ++ t).data.drop p.length = t.data := by
    rw [String.data_append]
    exact List.drop_left _ _
  unfold sliceFrom
  rw [h]

/-! ## Facts about `serveStats` -/

theorem sumAndReply_calls {σ : Type} (s : Store σ) (w : ResponseWriter) (st : σ)
    (key : List String) (p : Bool) :
    (sumAndReply s w st key p).calls = [Call.SumCounter key p] := by
  unfold sumAndReply
  split
  · rfl
  · dsimp only
    split <;> rfl

theorem sumAndReply_status {σ : Type} (s : Store σ) (broken : Bool) (st : σ)
    (key : List String) (p : Bool) :
    (sumAndReply s (.fresh broken) st key p).w.status = some 500 ∨
      (sumAndReply s (.fresh broken) st key p).w.status = some 200 := by
  unfold sumAndReply
  split
  · left; rfl
  · right
    cases broken <;> rfl

/-- The handler on a path below `/stats/counter/`, in terms of the suffix. -/
theorem serveStats_suffix {σ : Type} (s : Store σ) (w : ResponseWriter) (form : Values) (st : σ)
    (suffix : String) :
    serveStats s w ⟨"/stats/counter/" ++ suffix, form⟩ st =
      if strings.Index suffix '/' > 0 then
        some { w := w.WriteHeader 404, st := st, calls := [] }
      else if suffix = "" then
        some { w := w.WriteHeader 403, st := st, calls := [] }
      else
        match (strings.Split suffix ':').getLast? with
        | none => none
        | some last =>
          if last = "*" then
            if (strings.Split suffix ':').dropLast.length = 0 then
              some { w := w.WriteHeader 403, st := st, calls := [] }
            else some (sumAndReply s w st (strings.Split suffix ':').dropLast true)
          else some (sumAndReply s w st (strings.Split suffix ':') false) := by
  unfold serveStats
  simp only [hasPrefix_append, sliceFrom_append]
  rfl

theorem split_eq_singleton (suffix t : String) (h : strings.Split suffix ':' = [t]) :
    suffix = t := by
  unfold strings.Split at h
  cases hs : strings.splitChars ':' suffix.data with
  | nil => exact absurd hs (splitChars_ne_nil _ _)
  | cons seg rest =>
    rw [hs] at h
    simp at h
    obtain ⟨h1, h2⟩ := h
    subst h2
    have := splitChars_eq_singleton _ _ _ hs
    rw [← h1, ← this]

theorem split_ne_nil (suffix : String) : strings.Split suffix ':' ≠ [] := by
  unfold strings.Split
  simpa using splitChars_ne_nil ':' suffix.data

theorem index_of_not_mem (suffix : String) (h : '/' ∉ suffix.data) :
    ¬ strings.Index suffix '/' > 0 := by
  unfold strings.Index
  rw [indexFrom_of_not_mem _ _ _ h]
  decide

/-- What `serveStats` does on a suffix without `/`, by the shape of the split
suffix. -/
theorem serveStats_noslash {σ : Type} (s : Store σ) (w : ResponseWriter) (form : Values) (st : σ)
    (suffix : String) (h : '/' ∉ suffix.data) :
    (suffix = "" ∧
        serveStats s w ⟨"/stats/counter/" ++ suffix, form⟩ st
          = some { w := w.WriteHeader 403, st := st, calls := [] }) ∨
    (suffix = "*" ∧
        serveStats s w ⟨"/stats/counter/" ++ suffix, form⟩ st
          = some { w := w.WriteHeader 403, st := st, calls := [] }) ∨
    (suffix ≠ "" ∧ suffix ≠ "*" ∧
        (strings.Split suffix ':').getLast? = some "*" ∧
        (strings.Split suffix ':').dropLast ≠ [] ∧
        serveStats s w ⟨"/stats/counter/" ++ suffix, form⟩ st
          = some (sumAndReply s w st (strings.Split suffix ':').dropLast true)) ∨
    (suffix ≠ "" ∧ suffix ≠ "*" ∧
        (strings.Split suffix ':').getLast? ≠ some "*" ∧
        serveStats s w ⟨"/stats/counter/" ++ suffix, form⟩ st
          = some (sumAndReply s w st (strings.Split suffix ':') false)) := by
  rw [serveStats_suffix, if_neg (index_of_not_mem suffix h)]
  by_cases he : suffix = ""
  · left
    exact ⟨he, by rw [if_pos he]⟩
  · right
    rw [if_neg he]
    have hl : (strings.Split suffix ':').getLast? =
        some ((strings.Split suffix ':').getLast (split_ne_nil suffix)) :=
      List.getLast?_eq_getLast _ _
    rw [hl]
    dsimp only
    by_cases hstar : (strings.Split suffix ':').getLast (split_ne_nil suffix) = "*"
    · rw [if_pos hstar]
      by_cases hd : (strings.Split suffix ':').dropLast.length = 0
      · left
        rw [if_pos hd]
        refine ⟨?_, rfl⟩
        apply split_eq_singleton
        have := List.dropLast_append_getLast (split_ne_nil suffix)
        rw [List.length_eq_zero.mp hd, hstar] at this
        simpa using this.symm
      · right; left
        rw [if_neg hd]
        refine ⟨he, ?_, by rw [hstar], fun e => hd (by rw [e]; rfl), rfl⟩
        intro e
        subst e
        exact hd (by decide)
    · right; right
      rw [if_neg hstar]
      refine ⟨he, ?_, ?_, rfl⟩
      · intro e
        subst e
        exact hstar (by decide)
      · intro e
        exact hstar (by simpa using e)

/-- What `serveStats` does on the join at `:` of segments without `:` and
without `/`. -/
theorem serveStats_join {σ : Type} (s : Store σ) (w : ResponseWriter) (form : Values)
    (st : σ) (segs : List String) (hne : segs ≠ [])
    (hcolon : ∀ seg ∈ segs, ':' ∉ seg.data) (hslash : ∀ seg ∈ segs, '/' ∉ seg.data)
    (hsuffix : strings.Join segs ":" ≠ "") :
    ∃ o, serveStats s w ⟨"/stats/counter/" ++ strings.Join segs ":", form⟩ st = some o ∧
      (segs.getLast? = some "*" → 2 ≤ segs.length →
        o.calls = [Call.SumCounter segs.dropLast true]) ∧
      (segs.getLast? ≠ some "*" → o.calls = [Call.SumCounter segs false]) ∧
      (∀ key p, Call.SumCounter key p ∈ o.calls → key ≠ []) := by
  have hsplit := split_join segs hne hcolon
  have hno : '/' ∉ (strings.Join segs ":").data := join_not_mem '/' (by decide) segs hslash
  rcases serveStats_noslash s w form st _ hno with
    ⟨he, _⟩ | ⟨he, hr⟩ | ⟨_, _, hl, hd, hr⟩ | ⟨_, _, hl, hr⟩
  · exact absurd he hsuffix
  · refine ⟨_, hr, fun hl h2 => ?_, fun hl => ?_, fun key p hm => by simp at hm⟩
    · rw [he] at hsplit
      have h3 : strings.Split "*" ':' = ["*"] := by decide
      rw [h3] at hsplit
      rw [← hsplit] at h2
      exact absurd h2 (by decide)
    · rw [he] at hsplit
      have h3 : strings.Split "*" ':' = ["*"] := by decide
      rw [h3] at hsplit
      rw [← hsplit] at hl
      exact absurd rfl hl
  · rw [hsplit] at hl hd hr
    refine ⟨_, hr, fun _ _ => sumAndReply_calls _ _ _ _ _, fun hn => absurd hl hn, ?_⟩
    intro key p hm
    rw [sumAndReply_calls] at hm
    simp at hm
    rw [hm.1]
    exact hd
  · rw [hsplit] at hl hr
    refine ⟨_, hr, fun hy _ => absurd hy hl, fun _ => sumAndReply_calls _ _ _ _ _, ?_⟩
    intro key p hm
    rw [sumAndReply_calls] at hm
    simp at hm
    rw [hm.1]
    exact hne

/-! ## The counter query: theorems -/

/-- C1 (the code at the failing input): on the path `/stats/counter//a`, whose
suffix `/a` contains a `/`, `serveStats` does not answer 404: the test
`strings.Index(base, "/") > 0` misses a `/` in first position, and the store's
`SumCounter` is called with the key `["/a"]`. -/
theorem serveStats_leading_slash_reaches_store {σ : Type} (s : Store σ) (broken : Bool)
    (form : Values) (st : σ) :
    ∃ o, serveStats s (.fresh broken) ⟨"/stats/counter//a", form⟩ st = some o ∧
      o.calls = [Call.SumCounter ["/a"] false] ∧ o.w.status ≠ some 404 := by
  have hp : "/stats/counter//a" = "/stats/counter/" ++ "/a" := by decide
  have h1 : ¬ strings.Index "/a" '/' > 0 := by decide
  have h2 : ¬ ("/a" : String) = "" := by decide
  have h3 : strings.Split "/a" ':' = ["/a"] := by decide
  rw [hp, serveStats_suffix, if_neg h1, if_neg h2, h3]
  refine ⟨_, rfl, sumAndReply_calls _ _ _ _ _, ?_⟩
  rcases sumAndReply_status s broken st ["/a"] false with h | h <;> rw [h] <;> decide

theorem serveInfoEntry_parse_error {σ : Type} (s : Store σ) (r : Request) (acc : InfoLoop σ)
    (url msg : String) (h : s.ParseURL url = .error msg) :
    serveInfoEntry s r acc url =
      { response := mapSet acc.response url
          { Revision := 0, Sha256 := "", Errors := [msg], Warnings := [] }
        st := acc.st, calls := acc.calls } := by
  simp [serveInfoEntry, h]

theorem serveInfoEntry_found {σ : Type} (s : Store σ) (r : Request) (acc : InfoLoop σ)
    (url : String) (curl : URL) (info : CharmInfo) (st1 : σ) (h : s.ParseURL url = .ok curl)
    (hi : s.CharmInfo acc.st curl = (.ok info, st1)) :
    serveInfoEntry s r acc url =
      { response := mapSet acc.response url
          { Revision := info.Revision, Sha256 := info.BundleSha256, Errors := [], Warnings := [] }
        st := st1
        calls := acc.calls ++ [Call.CharmInfo curl] ++
          (if statsEnabled r then [Call.IncCounter (charmStatsKey curl "charm-info")] else []) } := by
  simp [serveInfoEntry, h, hi]

theorem serveInfoEntry_store_error {σ : Type} (s : Store σ) (r : Request) (acc : InfoLoop σ)
    (url : String) (curl : URL) (err : StoreError) (st1 : σ) (h : s.ParseURL url = .ok curl)
    (hi : s.CharmInfo acc.st curl = (.error err, st1)) :
    serveInfoEntry s r acc url =
      { response := mapSet acc.response url
          { Revision := 0, Sha256 := "", Errors := [StoreError.Error s err], Warnings := [] }
        st := st1
        calls := acc.calls ++ [Call.CharmInfo curl] ++
          (if err = StoreError.ErrNotFound ∧ statsEnabled r = true then
            [Call.IncCounter (charmStatsKey curl "charm-missing")] else []) } := by
  by_cases he : err = StoreError.ErrNotFound <;> simp [serveInfoEntry, h, hi, he]

/-- The three ways an iteration of the loop of `serveInfo` can go. -/
theorem serveInfoEntry_cases {σ : Type} (s : Store σ) (acc : InfoLoop σ) (url : String) :
    (∃ msg, s.ParseURL url = .error msg) ∨
    (∃ curl info st1, s.ParseURL url = .ok curl ∧ s.CharmInfo acc.st curl = (.ok info, st1)) ∨
    (∃ curl err st1, s.ParseURL url = .ok curl ∧ s.CharmInfo acc.st curl = (.error err, st1)) := by
  cases h : s.ParseURL url with
  | error msg => exact Or.inl ⟨msg, rfl⟩
  | ok curl =>
    right
    rcases hi : s.CharmInfo acc.st curl with ⟨res, st1⟩
    cases res with
    | ok info => exact Or.inl ⟨curl, info, st1, rfl, hi⟩
    | error err => exact Or.inr ⟨curl, err, st1, rfl, hi⟩

theorem serveInfoEntry_inc_le {σ : Type} (s : Store σ) (r : Request) (acc : InfoLoop σ)
    (url : String) :
    ((serveInfoEntry s r acc url).calls.filter Call.isIncCounter).length
      ≤ (acc.calls.filter Call.isIncCounter).length + 1 := by
  rcases serveInfoEntry_cases s acc url with ⟨msg, h⟩ | ⟨curl, info, st1, h, hi⟩ |
    ⟨curl, err, st1, h, hi⟩
  · rw [serveInfoEntry_parse_error s r acc url msg h]
    exact Nat.le_succ _
  · rw [serveInfoEntry_found s r acc url curl info st1 h hi]
    by_cases hs : statsEnabled r = true <;> simp [hs, Call.isIncCounter]
  · rw [serveInfoEntry_store_error s r acc url curl err st1 h hi]
    by_cases hs : err = StoreError.ErrNotFound ∧ statsEnabled r = true <;>
      simp [hs, Call.isIncCounter]

theorem serveInfoEntry_inc_off {σ : Type} (s : Store σ) (r : Request) (acc : InfoLoop σ)
    (url : String) (hoff : statsEnabled r = false) :
    (serveInfoEntry s r acc url).calls.filter Call.isIncCounter
      = acc.calls.filter Call.isIncCounter := by
  rcases serveInfoEntry_cases s acc url with ⟨msg, h⟩ | ⟨curl, info, st1, h, hi⟩ |
    ⟨curl, err, st1, h, hi⟩
  · rw [serveInfoEntry_parse_error s r acc url msg h]
  · rw [serveInfoEntry_found s r acc url curl info st1 h hi]
    simp [hoff, Call.isIncCounter]
  · rw [serveInfoEntry_store_error s r acc url curl err st1 h hi]
    simp [hoff, Call.isIncCounter]

theorem loop_inc_le {σ : Type} (s : Store σ) (r : Request) (urls : List String)
    (acc : InfoLoop σ) :
    (((urls.foldl (serveInfoEntry s r) acc).calls).filter Call.isIncCounter).length
      ≤ (acc.calls.filter Call.isIncCounter).length + urls.length := by
  induction urls generalizing acc with
  | nil => simp
  | cons url rest ih =>
    have h1 := ih (serveInfoEntry s r acc url)
    have h2 := serveInfoEntry_inc_le s r acc url
    simp only [List.foldl_cons, List.length_cons]
    omega

theorem loop_inc_off {σ : Type} (s : Store σ) (r : Request) (urls : List String)
    (acc : InfoLoop σ) (hoff : statsEnabled r = false) :
    ((urls.foldl (serveInfoEntry s r) acc).calls).filter Call.isIncCounter
      = acc.calls.filter Call.isIncCounter := by
  induction urls generalizing acc with
  | nil => rfl
  | cons url rest ih =>
    simp only [List.foldl_cons]
    rw [ih, serveInfoEntry_inc_off s r acc url hoff]

theorem serveInfo_calls {σ : Type} (s : Store σ) (w : ResponseWriter) (r : Request) (st : σ) :
    (serveInfo s w r st).calls = [] ∨
      (serveInfo s w r st).calls = (serveInfoLoop s r st).calls := by
  unfold serveInfo
  split
  · left; rfl
  · right
    dsimp only
    split <;> rfl

theorem serveInfo_calls_of_path {σ : Type} (s : Store σ) (w : ResponseWriter) (r : Request)
    (st : σ) (hpath : r.Path = "/charm-info") :
    (serveInfo s w r st).calls = (serveInfoLoop s r st).calls := by
  unfold serveInfo
  rw [if_neg (not_not.mpr hpath)]
  dsimp only
  split <;> rfl

theorem not_mem_of_filter_inc_nil (calls : List Call)
    (h : calls.filter Call.isIncCounter = []) (key : List String) :
    Call.IncCounter key ∉ calls := by
  intro hm
  have : Call.IncCounter key ∈ calls.filter Call.isIncCounter :=
    List.mem_filter.mpr ⟨hm, rfl⟩
  rw [h] at this
  exact absurd this (by simp)

theorem statsEnabled_of_zero (r : Request) (h : r.Form.Get "stats" = "0") :
    statsEnabled r = false := by
  simp [statsEnabled, h]

/-- The handler on a path below `/charm/`, in terms of the identifier. -/
theorem serveCharm_suffix {σ : Type} (s : Store σ) (w : ResponseWriter) (form : Values) (st : σ)
    (id : String) :
    serveCharm s w ⟨"/charm/" ++ id, form⟩ st =
      match s.ParseURL ("cs:" ++ id) with
      | .error _ => some { w := w.WriteHeader 404, st := st, calls := [] }
      | .ok curl =>
        match s.OpenCharm st curl with
        | (.error err, st1) =>
          if err = StoreError.ErrNotFound then
            some { w := w.WriteHeader 404, st := st1, calls := [Call.OpenCharm curl] }
          else
            some { w := w.WriteHeader 500, st := st1, calls := [Call.OpenCharm curl] }
        | (.ok (info, rc), st1) =>
          some { w := ioCopy (((w.Set "Connection" "close").Set "Content-Type"
                    "application/octet-stream").Set "Content-Length" (toString info.BundleSize)) rc
                 st := st1
                 calls := [Call.OpenCharm curl] ++
                   (if statsEnabled ⟨"/charm/" ++ id, form⟩ then
                     [Call.IncCounter (charmStatsKey curl "charm-bundle")] else []) ++
                   [Call.Close] } := by
  unfold serveCharm
  simp only [hasPrefix_append, sliceFrom_append]
  rfl

/-! ## Facts about the response map of `serveInfo` -/

theorem mapSet_keys_mem {β : Type} (m : List (String × β)) (k : String) (v : β) (u : String) :
    u ∈ (mapSet m k v).map Prod.fst ↔ u = k ∨ u ∈ m.map Prod.fst := by
  induction m with
  | nil => simp [mapSet]
  | cons e rest ih =>
    obtain ⟨k1, v1⟩ := e
    unfold mapSet
    by_cases hk : k1 = k
    · rw [if_pos hk]
      subst hk
      simp
    · rw [if_neg hk]
      simp only [List.map_cons, List.mem_cons, ih]
      tauto

theorem mapSet_nodup {β : Type} (m : List (String × β)) (k : String) (v : β)
    (h : (m.map Prod.fst).Nodup) : ((mapSet m k v).map Prod.fst).Nodup := by
  induction m with
  | nil => simp [mapSet]
  | cons e rest ih =>
    obtain ⟨k1, v1⟩ := e
    simp only [List.map_cons, List.nodup_cons] at h
    unfold mapSet
    by_cases hk : k1 = k
    · rw [if_pos hk]
      subst hk
      simpa using h
    · rw [if_neg hk]
      simp only [List.map_cons, List.nodup_cons]
      refine ⟨fun hm => ?_, ih h.2⟩
      rcases (mapSet_keys_mem rest k v k1).mp hm with e | e
      · exact hk e
      · exact h.1 e

theorem mapSet_mem {β : Type} (m : List (String × β)) (k : String) (v : β) (e : String × β)
    (h : e ∈ mapSet m k v) : e = (k, v) ∨ e ∈ m := by
  induction m with
  | nil => simpa [mapSet] using h
  | cons e1 rest ih =>
    obtain ⟨k1, v1⟩ := e1
    unfold mapSet at h
    by_cases hk : k1 = k
    · rw [if_pos hk] at h
      simp only [List.mem_cons] at h ⊢
      tauto
    · rw [if_neg hk] at h
      simp only [List.mem_cons] at h ⊢
      rcases h with h | h
      · exact Or.inr (Or.inl h)
      · rcases ih h with h | h
        · exact Or.inl h
        · exact Or.inr (Or.inr h)

/-- The envelope an iteration stores has revision zero when it has errors. -/
theorem serveInfoEntry_response {σ : Type} (s : Store σ) (r : Request) (acc : InfoLoop σ)
    (url : String) :
    ∃ c : responseCharm, (serveInfoEntry s r acc url).response = mapSet acc.response url c ∧
      (c.Errors ≠ [] → c.Revision = 0) := by
  rcases serveInfoEntry_cases s acc url with ⟨msg, h⟩ | ⟨curl, info, st1, h, hi⟩ |
    ⟨curl, err, st1, h, hi⟩
  · rw [serveInfoEntry_parse_error s r acc url msg h]
    exact ⟨_, rfl, fun _ => rfl⟩
  · rw [serveInfoEntry_found s r acc url curl info st1 h hi]
    exact ⟨_, rfl, fun hc => absurd rfl hc⟩
  · rw [serveInfoEntry_store_error s r acc url curl err st1 h hi]
    exact ⟨_, rfl, fun _ => rfl⟩

theorem loop_response {σ : Type} (s : Store σ) (r : Request) (urls : List String)
    (acc : InfoLoop σ) (hnd : (acc.response.map Prod.fst).Nodup)
    (hgood : ∀ e ∈ acc.response, e.2.Errors ≠ [] → e.2.Revision = 0) :
    (((urls.foldl (serveInfoEntry s r) acc).response).map Prod.fst).Nodup ∧
    (∀ u, u ∈ ((urls.foldl (serveInfoEntry s r) acc).response).map Prod.fst ↔
      u ∈ acc.response.map Prod.fst ∨ u ∈ urls) ∧
    (∀ e ∈ (urls.foldl (serveInfoEntry s r) acc).response,
      e.2.Errors ≠ [] → e.2.Revision = 0) := by
  induction urls generalizing acc with
  | nil => exact ⟨hnd, fun u => by simp, hgood⟩
  | cons url rest ih =>
    obtain ⟨c, hc, hz⟩ := serveInfoEntry_response s r acc url
    have hnd1 : ((serveInfoEntry s r acc url).response.map Prod.fst).Nodup := by
      rw [hc]; exact mapSet_nodup _ _ _ hnd
    have hgood1 : ∀ e ∈ (serveInfoEntry s r acc url).response,
        e.2.Errors ≠ [] → e.2.Revision = 0 := by
      intro e he
      rw [hc] at he
      rcases mapSet_mem _ _ _ _ he with h | h
      · rw [h]; exact hz
      · exact hgood e h
    obtain ⟨h1, h2, h3⟩ := ih (serveInfoEntry s r acc url) hnd1 hgood1
    refine ⟨h1, fun u => ?_, h3⟩
    simp only [List.foldl_cons]
    rw [h2 u, hc, mapSet_keys_mem]
    simp only [List.mem_cons]
    tauto

theorem mapSet_mem_self {β : Type} (m : List (String × β)) (k : String) (v : β) :
    (k, v) ∈ mapSet m k v := by
  induction m with
  | nil => simp [mapSet]
  | cons e rest ih =>
    obtain ⟨k1, v1⟩ := e
    unfold mapSet
    by_cases hk : k1 = k
    · rw [if_pos hk]; simp
    · rw [if_neg hk]; exact List.mem_cons_of_mem _ ih

theorem mapSet_mem_other {β : Type} (m : List (String × β)) (k : String) (v : β)
    (e : String × β) (he : e ∈ m) (hk : e.1 ≠ k) : e ∈ mapSet m k v := by
  induction m with
  | nil => simp at he
  | cons e1 rest ih =>
    obtain ⟨k1, v1⟩ := e1
    unfold mapSet
    rcases List.mem_cons.mp he with h | h
    · subst h
      rw [if_neg hk]
      simp
    · by_cases hk1 : k1 = k
      · rw [if_pos hk1]; exact List.mem_cons_of_mem _ h
      · rw [if_neg hk1]; exact List.mem_cons_of_mem _ (ih h)

/-- An envelope stays in the map through the iterations for other
identifiers. -/
theorem loop_keeps {σ : Type} (s : Store σ) (r : Request) (post : List String)
    (acc : InfoLoop σ) (e : String × responseCharm) (he : e ∈ acc.response)
    (hk : e.1 ∉ post) : e ∈ (post.foldl (serveInfoEntry s r) acc).response := by
  induction post generalizing acc with
  | nil => exact he
  | cons u rest ih =>
    simp only [List.mem_cons, not_or] at hk
    simp only [List.foldl_cons]
    apply ih _ _ hk.2
    obtain ⟨c, hc, _⟩ := serveInfoEntry_response s r acc u
    rw [hc]
    exact mapSet_mem_other _ _ _ _ he hk.1

/-- The envelope stored by the last iteration for an identifier is the one in
the final map. -/
theorem loop_last {σ : Type} (s : Store σ) (r : Request) (pre post : List String)
    (url : String) (acc : InfoLoop σ) (c : responseCharm) (hpost : url ∉ post)
    (hc : (serveInfoEntry s r (pre.foldl (serveInfoEntry s r) acc) url).response
      = mapSet (pre.foldl (serveInfoEntry s r) acc).response url c) :
    (url, c) ∈ ((pre ++ url :: post).foldl (serveInfoEntry s r) acc).response := by
  rw [List.foldl_append, List.foldl_cons]
  apply loop_keeps _ _ _ _ _ _ hpost
  rw [hc]
  exact mapSet_mem_self _ _ _

theorem marshal_revision (c : responseCharm) :
    ("revision", JValue.num c.Revision) ∈ c.marshal := by
  simp [responseCharm.marshal]

theorem marshal_errors (c : responseCharm) (es : List String)
    (h : ("errors", JValue.strs es) ∈ c.marshal) : c.Errors ≠ [] := by
  intro he
  simp [responseCharm.marshal, he] at h

/-! ## Increment keys and counting: theorems -/

/-- C4: `charmStatsKey` returns `[kind, series, name]` when the user of the URL
is empty and `[kind, series, name, user]` otherwise, never an empty key; the
key of a URL with a user differs from the key of any URL without a user,
whatever the two kinds. -/
theorem charmStatsKey_shape (curl : URL) (kind : String) :
    (curl.User = "" → charmStatsKey curl kind = [kind, curl.Series, curl.Name]) ∧
    (curl.User ≠ "" → charmStatsKey curl kind = [kind, curl.Series, curl.Name, curl.User]) ∧
    charmStatsKey curl kind ≠ [] ∧
    (∀ (other : URL) (kind2 : String), curl.User ≠ "" → other.User = "" →
      charmStatsKey curl kind ≠ charmStatsKey other kind2) := by
  refine ⟨fun h => by simp [charmStatsKey, h], fun h => by simp [charmStatsKey, h], ?_, ?_⟩
  · unfold charmStatsKey
    split <;> simp
  · intro other kind2 h1 h2 e
    have := congrArg List.length e
    simp [charmStatsKey, h1, h2] at this

/-- C4 at the URL `cs:~joe/precise/wordpress` and the kind `charm-info`. -/
theorem charmStatsKey_shape_witness :
    charmStatsKey
        { Schema := "cs", User := "joe", Series := "precise", Name := "wordpress", Revision := -1 }
        "charm-info" = ["charm-info", "precise", "wordpress", "joe"] :=
  (charmStatsKey_shape
    { Schema := "cs", User := "joe", Series := "precise", Name := "wordpress", Revision := -1 }
    "charm-info").2.1 (by decide)

/-- C5: with counting enabled, one iteration of the loop of `serveInfo` (one
requested identifier) spawns an increment exactly when the identifier parsed
and the lookup succeeded (kind `charm-info`) or failed with `ErrNotFound` (kind
`charm-missing`).  A parse failure makes no call at all, in particular no
lookup; any other store error makes the lookup and no increment.  At most one
increment is spawned per identifier: the handler spawns no more increments than
identifiers were requested. -/
theorem serveInfo_increments {σ : Type} (s : Store σ) (w : ResponseWriter) (r : Request)
    (st : σ) (acc : InfoLoop σ) (url : String) (hstats : statsEnabled r = true) :
    (∀ msg, s.ParseURL url = .error msg → (serveInfoEntry s r acc url).calls = acc.calls) ∧
    (∀ curl info st1, s.ParseURL url = .ok curl → s.CharmInfo acc.st curl = (.ok info, st1) →
      (serveInfoEntry s r acc url).calls = acc.calls ++
        [Call.CharmInfo curl, Call.IncCounter (charmStatsKey curl "charm-info")]) ∧
    (∀ curl st1, s.ParseURL url = .ok curl →
      s.CharmInfo acc.st curl = (.error StoreError.ErrNotFound, st1) →
      (serveInfoEntry s r acc url).calls = acc.calls ++
        [Call.CharmInfo curl, Call.IncCounter (charmStatsKey curl "charm-missing")]) ∧
    (∀ curl msg st1, s.ParseURL url = .ok curl →
      s.CharmInfo acc.st curl = (.error (StoreError.other msg), st1) →
      (serveInfoEntry s r acc url).calls = acc.calls ++ [Call.CharmInfo curl]) ∧
    (r.Path = "/charm-info" → (serveInfo s w r st).calls =
      ((r.Form "charms").foldl (serveInfoEntry s r)
        { response := [], st := st, calls := [] }).calls) ∧
    ((serveInfo s w r st).calls.filter Call.isIncCounter).length ≤ (r.Form "charms").length := by
  refine ⟨?_, ?_, ?_, ?_, ?_, ?_⟩
  · intro msg h
    rw [serveInfoEntry_parse_error s r acc url msg h]
  · intro curl info st1 h hi
    rw [serveInfoEntry_found s r acc url curl info st1 h hi]
    simp [hstats]
  · intro curl st1 h hi
    rw [serveInfoEntry_store_error s r acc url curl _ st1 h hi]
    simp [hstats]
  · intro curl msg st1 h hi
    rw [serveInfoEntry_store_error s r acc url curl _ st1 h hi]
    simp
  · intro hpath
    exact serveInfo_calls_of_path s w r st hpath
  · rcases serveInfo_calls s w r st with h | h
    · rw [h]; simp
    · rw [h]
      have := loop_inc_le s r (r.Form "charms") { response := [], st := st, calls := [] }
      simpa [serveInfoLoop] using this

/-- C5 on the request `/charm-info?charms=cs:precise/wordpress&charms=bad`:
counting is enabled, the first identifier is looked up and counted, the second
does not parse and causes no call. -/
theorem serveInfo_increments_witness :
    statsEnabled ⟨"/charm-info", formOf ["cs:precise/wordpress", "bad"] []⟩ = true ∧
    (serveInfo demoStore (.fresh false)
        ⟨"/charm-info", formOf ["cs:precise/wordpress", "bad"] []⟩ ()).calls =
      [Call.CharmInfo
          { Schema := "cs", User := "", Series := "precise", Name := "wordpress", Revision := -1 },
        Call.IncCounter ["charm-info", "precise", "wordpress"]] :=
  ⟨by decide,
    ((serveInfo_increments demoStore (.fresh false)
      ⟨"/charm-info", formOf ["cs:precise/wordpress", "bad"] []⟩ ()
      { response := [], st := (), calls := [] } "bad" (by decide)).2.2.2.2.1 (by decide)).trans
    (by decide)⟩

/-- C6 (amended): when the first value supplied for the form field `stats` is
`"0"`, neither `serveInfo` nor `serveCharm` spawns any `IncCounter`, whatever
the store returns and however many identifiers are requested. -/
theorem stats_first_value_zero_suppresses {σ : Type} (s : Store σ) (w : ResponseWriter)
    (r : Request) (st : σ) (h : r.Form.Get "stats" = "0") :
    (∀ key, Call.IncCounter key ∉ (serveInfo s w r st).calls) ∧
    (∀ o, serveCharm s w r st = some o → ∀ key, Call.IncCounter key ∉ o.calls) := by
  have hoff := statsEnabled_of_zero r h
  constructor
  · intro key
    apply not_mem_of_filter_inc_nil
    rcases serveInfo_calls s w r st with hc | hc
    · rw [hc]; rfl
    · rw [hc]
      exact loop_inc_off s r (r.Form "charms") { response := [], st := st, calls := [] } hoff
  · intro o ho key
    apply not_mem_of_filter_inc_nil
    unfold serveCharm at ho
    split at ho
    · exact absurd ho (by simp)
    · split at ho
      · cases ho; rfl
      · split at ho
        · split at ho <;> (cases ho; rfl)
        · cases ho
          simp [hoff, Call.isIncCounter]

/-- C6 (amended) on the request
`/charm-info?charms=cs:precise/wordpress&charms=cs:~joe/precise/wordpress&stats=0`. -/
theorem stats_first_value_zero_suppresses_witness :
    Values.Get (formOf ["cs:precise/wordpress", "cs:~joe/precise/wordpress"] ["0"]) "stats" = "0" ∧
    Call.IncCounter ["charm-info", "precise", "wordpress"] ∉ (serveInfo demoStore (.fresh false)
      ⟨"/charm-info", formOf ["cs:precise/wordpress", "cs:~joe/precise/wordpress"] ["0"]⟩ ()).calls ∧
    Call.IncCounter ["charm-info", "precise", "wordpress", "joe"] ∉ (serveInfo demoStore
      (.fresh false)
      ⟨"/charm-info", formOf ["cs:precise/wordpress", "cs:~joe/precise/wordpress"] ["0"]⟩ ()).calls :=
  ⟨by decide,
    (stats_first_value_zero_suppresses demoStore (.fresh false)
      ⟨"/charm-info", formOf ["cs:precise/wordpress", "cs:~joe/precise/wordpress"] ["0"]⟩ ()
      (by decide)).1 _,
    (stats_first_value_zero_suppresses demoStore (.fresh false)
      ⟨"/charm-info", formOf ["cs:precise/wordpress", "cs:~joe/precise/wordpress"] ["0"]⟩ ()
      (by decide)).1 _⟩

/-- C6 as stated fails: the request
`/charm-info?charms=cs:precise/wordpress&stats=1&stats=0` supplies a `stats`
parameter with value `"0"`, yet `serveInfo` spawns an increment, because
`Form.Get` reads the first value only. -/
theorem stats_zero_as_second_value_counts :
    "0" ∈ formOf ["cs:precise/wordpress"] ["1", "0"] "stats" ∧
    (serveInfo demoStore (.fresh false)
        ⟨"/charm-info", formOf ["cs:precise/wordpress"] ["1", "0"]⟩ ()).calls =
      [Call.CharmInfo
          { Schema := "cs", User := "", Series := "precise", Name := "wordpress", Revision := -1 },
        Call.IncCounter ["charm-info", "precise", "wordpress"]] := by
  decide

/-- C7 (amended): on a download request, `serveCharm` spawns exactly one
increment when the identifier parses, the store opens the charm and counting is
enabled, and its key is `["charm-bundle", series, name]` with the user appended
as a fourth segment when the URL has one; when parsing fails no call is made,
and when the open fails (not found or any other error) the open is the only
call. -/
theorem serveCharm_increment {σ : Type} (s : Store σ) (w : ResponseWriter) (form : Values)
    (st : σ) (id : String) :
    ∃ o, serveCharm s w ⟨"/charm/" ++ id, form⟩ st = some o ∧
      (∀ msg, s.ParseURL ("cs:" ++ id) = .error msg → o.calls = []) ∧
      (∀ curl err st1, s.ParseURL ("cs:" ++ id) = .ok curl →
        s.OpenCharm st curl = (.error err, st1) → o.calls = [Call.OpenCharm curl]) ∧
      (∀ curl info rc st1, s.ParseURL ("cs:" ++ id) = .ok curl →
        s.OpenCharm st curl = (.ok (info, rc), st1) →
        statsEnabled ⟨"/charm/" ++ id, form⟩ = true →
        o.calls = [Call.OpenCharm curl,
            Call.IncCounter ("charm-bundle" :: curl.Series :: curl.Name ::
              (if curl.User = "" then [] else [curl.User])),
            Call.Close]) := by
  rw [serveCharm_suffix]
  cases hp : s.ParseURL ("cs:" ++ id) with
  | error msg =>
    refine ⟨_, rfl, fun _ _ => rfl, fun _ _ _ h => ?_, fun _ _ _ _ h => ?_⟩ <;> cases h
  | ok curl =>
    dsimp only
    rcases ho : s.OpenCharm st curl with ⟨res, st1⟩
    cases res with
    | error err =>
      by_cases he : err = StoreError.ErrNotFound
      · dsimp only
        rw [if_pos he]
        refine ⟨_, rfl, fun _ h => ?_, fun c _ _ h _ => ?_, fun c _ _ _ h h2 => ?_⟩
        · cases h
        · cases h; rfl
        · cases h; rw [ho] at h2; cases h2
      · dsimp only
        rw [if_neg he]
        refine ⟨_, rfl, fun _ h => ?_, fun c _ _ h _ => ?_, fun c _ _ _ h h2 => ?_⟩
        · cases h
        · cases h; rfl
        · cases h; rw [ho] at h2; cases h2
    | ok val =>
      obtain ⟨info, rc⟩ := val
      refine ⟨_, rfl, fun _ h => ?_, fun c _ _ h h2 => ?_, fun c _ _ _ h _ hs => ?_⟩
      · cases h
      · cases h; rw [ho] at h2; cases h2
      · cases h
        by_cases hu : curl.User = "" <;> simp [hs, charmStatsKey, hu]

/-- C7 (amended) on the request `/charm/~joe/precise/wordpress`. -/
theorem serveCharm_increment_witness :
    ∃ o, serveCharm demoStore (.fresh false) ⟨"/charm/" ++ "~joe/precise/wordpress", noForm⟩ ()
        = some o ∧
      o.calls = [Call.OpenCharm
            { Schema := "cs", User := "joe", Series := "precise", Name := "wordpress",
              Revision := -1 },
          Call.IncCounter ["charm-bundle", "precise", "wordpress", "joe"],
          Call.Close] := by
  obtain ⟨o, ho, _, _, h3⟩ :=
    serveCharm_increment demoStore (.fresh false) noForm () "~joe/precise/wordpress"
  exact ⟨o, ho, h3 _ _ _ _ (by rfl) (by rfl) (by decide)⟩

/-- C7 as stated fails: on `/charm/precise/wordpress` the key of the increment
is `["charm-bundle", "precise", "wordpress"]`, not
`["bundle", "precise", "wordpress"]`. -/
theorem serveCharm_key_kind_is_charm_bundle :
    (serveCharm demoStore (.fresh false) ⟨"/charm/precise/wordpress", noForm⟩ ()).map
        (fun o => o.calls.filter Call.isIncCounter)
      = some [Call.IncCounter ["charm-bundle", "precise", "wordpress"]] ∧
    Call.IncCounter ["charm-bundle", "precise", "wordpress"]
      ≠ Call.IncCounter ["bundle", "precise", "wordpress"] := by
  decide

/-! ## The response of the batch lookup: theorems -/

/-- C8 (amended): on `/charm-info` the JSON object written by `serveInfo` has as
many envelopes as there are distinct identifier strings in the `charms`
parameter, one for each of them under its own key, and every envelope carries a
`revision` member.  The envelope of an identifier is the one of its last
occurrence in `charms`: when the identifier does not parse, or the lookup made
at that point fails, the envelope is revision zero with the error text; when
the lookup succeeds it is the revision (and digest) of the charm. -/
theorem serveInfo_envelopes {σ : Type} (s : Store σ) (r : Request) (st : σ)
    (hpath : r.Path = "/charm-info") :
    ∃ members, (serveInfo s (.fresh false) r st).w.body = [Body.json members] ∧
      members.length = (r.Form "charms").dedup.length ∧
      (members.map Prod.fst).Nodup ∧
      (∀ url, url ∈ members.map Prod.fst ↔ url ∈ r.Form "charms") ∧
      (∀ m ∈ members, ∃ n, ("revision", JValue.num n) ∈ m.2 ∧
        ((∃ es, ("errors", JValue.strs es) ∈ m.2) → n = 0)) ∧
      (∀ pre url post, r.Form "charms" = pre ++ url :: post → url ∉ post →
        (∀ msg, s.ParseURL url = .error msg →
          (url, [("revision", JValue.num 0), ("errors", JValue.strs [msg])]) ∈ members) ∧
        (∀ curl err st2, s.ParseURL url = .ok curl →
          s.CharmInfo (pre.foldl (serveInfoEntry s r)
            { response := [], st := st, calls := [] }).st curl = (.error err, st2) →
          (url, [("revision", JValue.num 0),
            ("errors", JValue.strs [StoreError.Error s err])]) ∈ members) ∧
        (∀ curl info st2, s.ParseURL url = .ok curl →
          s.CharmInfo (pre.foldl (serveInfoEntry s r)
            { response := [], st := st, calls := [] }).st curl = (.ok info, st2) →
          (url, ("revision", JValue.num info.Revision) ::
            (if info.BundleSha256 = "" then []
              else [("sha256", JValue.str info.BundleSha256)])) ∈ members)) := by
  obtain ⟨h1, h2, h3⟩ := loop_response s r (r.Form "charms")
    { response := [], st := st, calls := [] } (by simp) (by simp)
  have hkeys : (marshalResponse (serveInfoLoop s r st).response).map Prod.fst
      = (serveInfoLoop s r st).response.map Prod.fst := by
    simp [marshalResponse, Function.comp_def]
  have hmem : ∀ (url : String) (c : responseCharm), (url, c) ∈ (serveInfoLoop s r st).response →
      (url, c.marshal) ∈ marshalResponse (serveInfoLoop s r st).response :=
    fun url c h => List.mem_map.mpr ⟨(url, c), h, rfl⟩
  refine ⟨marshalResponse (serveInfoLoop s r st).response, ?_, ?_, ?_, ?_, ?_, ?_⟩
  · unfold serveInfo
    rw [if_neg (not_not.mpr hpath)]
    rfl
  · have hperm : List.Perm ((serveInfoLoop s r st).response.map Prod.fst)
        (r.Form "charms").dedup :=
      (List.perm_ext_iff_of_nodup h1 (List.nodup_dedup _)).mpr
        (fun u => by rw [h2 u]; simp)
    have := hperm.length_eq
    simpa [marshalResponse] using this
  · rw [hkeys]
    exact h1
  · intro url
    rw [hkeys]
    unfold serveInfoLoop
    rw [h2 url]
    simp
  · intro m hm
    obtain ⟨e, he, rfl⟩ := List.mem_map.mp hm
    refine ⟨e.2.Revision, marshal_revision _, fun ⟨es, hes⟩ => ?_⟩
    exact h3 e he (marshal_errors _ es hes)
  · intro pre url post hform hpost
    have hloop : serveInfoLoop s r st = (pre ++ url :: post).foldl (serveInfoEntry s r)
        { response := [], st := st, calls := [] } := by
      unfold serveInfoLoop
      rw [hform]
    refine ⟨fun msg hp => ?_, fun curl err st2 hp hi => ?_, fun curl info st2 hp hi => ?_⟩
    · have := loop_last s r pre post url { response := [], st := st, calls := [] } _ hpost
        (by rw [serveInfoEntry_parse_error s r _ url msg hp])
      rw [← hloop] at this
      exact hmem _ _ this
    · have := loop_last s r pre post url { response := [], st := st, calls := [] } _ hpost
        (by rw [serveInfoEntry_store_error s r _ url curl err st2 hp hi])
      rw [← hloop] at this
      exact hmem _ _ this
    · have := loop_last s r pre post url { response := [], st := st, calls := [] } _ hpost
        (by rw [serveInfoEntry_found s r _ url curl info st2 hp hi])
      rw [← hloop] at this
      have h4 := hmem _ _ this
      simpa [responseCharm.marshal] using h4

/-- C8 (amended) on the request `/charm-info?charms=cs:precise/wordpress&charms=bad`:
two envelopes, and the one of the identifier that does not parse is revision
zero with the error. -/
theorem serveInfo_envelopes_witness :
    ∃ members, (serveInfo demoStore (.fresh false)
        ⟨"/charm-info", formOf ["cs:precise/wordpress", "bad"] []⟩ ()).w.body
          = [Body.json members] ∧
      members.length = 2 ∧
      ("bad", [("revision", JValue.num 0), ("errors", JValue.strs ["invalid charm url"])])
        ∈ members := by
  obtain ⟨members, hb, hl, _, _, _, hlast⟩ :=
    serveInfo_envelopes demoStore ⟨"/charm-info", formOf ["cs:precise/wordpress", "bad"] []⟩ ()
      (by decide)
  exact ⟨members, hb, hl.trans (by decide),
    (hlast ["cs:precise/wordpress"] "bad" [] (by decide) (by decide)).1 _ (by rfl)⟩

/-- C8 as stated fails: the request
`/charm-info?charms=cs:precise/wordpress&charms=cs:precise/wordpress` supplies
two identifier strings and the response has one envelope. -/
theorem serveInfo_repeated_identifier_one_envelope :
    (formOf ["cs:precise/wordpress", "cs:precise/wordpress"] [] "charms").length = 2 ∧
    (serveInfo demoStore (.fresh false)
        ⟨"/charm-info", formOf ["cs:precise/wordpress", "cs:precise/wordpress"] []⟩ ()).w.body
      = [Body.json [("cs:precise/wordpress",
          [("revision", JValue.num 7), ("sha256", JValue.str "c0ffee")])]] := by
  decide

/-! ## The counter key on the wire: theorems -/

theorem join_eq_empty (segs : List String) (h : strings.Join segs ":" = "") :
    segs = [] ∨ segs = [""] := by
  cases segs with
  | nil => exact Or.inl rfl
  | cons a rest =>
    cases rest with
    | nil =>
      right
      simp only [strings.Join] at h
      rw [h]
    | cons b rest =>
      exfalso
      have := congrArg String.data h
      simp [strings.Join] at this

/-- C9 (amended): a counter key with at least one segment, whose segments
contain neither `:` nor `/` and which, when the wildcard flag is not set, does
not end in the segment `*` and is not the single empty segment: parsing its
wire form as `serveStats` does yields one `SumCounter` call with the same
segments and the same flag. -/
theorem wire_roundtrip {σ : Type} (s : Store σ) (w : ResponseWriter) (form : Values) (st : σ)
    (k : CounterKey) (hne : k.segments ≠ [])
    (hseg : ∀ seg ∈ k.segments, ':' ∉ seg.data ∧ '/' ∉ seg.data)
    (hexact : k.wildcard = false → k.segments.getLast? ≠ some "*" ∧ k.segments ≠ [""]) :
    ∃ o, serveStats s w ⟨"/stats/counter/" ++ k.wire, form⟩ st = some o ∧
      o.calls = [Call.SumCounter k.segments k.wildcard] := by
  obtain ⟨segs, wild⟩ := k
  cases wild with
  | true =>
    have hw : CounterKey.wire ⟨segs, true⟩ = strings.Join (segs ++ ["*"]) ":" := by
      rw [join_append_star segs hne]; rfl
    have hj : strings.Join (segs ++ ["*"]) ":" ≠ "" := by
      rw [join_append_star segs hne]
      intro e
      have := congrArg String.data e
      simp at this
    obtain ⟨o, ho, h1, _, _⟩ := serveStats_join s w form st (segs ++ ["*"]) (by simp)
      (fun seg hs => by
        rcases List.mem_append.mp hs with h | h
        · exact (hseg seg h).1
        · simp at h; subst h; decide)
      (fun seg hs => by
        rcases List.mem_append.mp hs with h | h
        · exact (hseg seg h).2
        · simp at h; subst h; decide)
      hj
    rw [hw]
    refine ⟨o, ho, ?_⟩
    have := h1 (by simp) (by
      have : 0 < segs.length := List.length_pos.mpr hne
      simp; omega)
    simpa using this
  | false =>
    have hw : CounterKey.wire ⟨segs, false⟩ = strings.Join segs ":" := by
      simp [CounterKey.wire]
    obtain ⟨hlast, hnot⟩ := hexact rfl
    have hj : strings.Join segs ":" ≠ "" := fun e => by
      rcases join_eq_empty segs e with h | h
      · exact hne h
      · exact hnot h
    obtain ⟨o, ho, _, h2, _⟩ := serveStats_join s w form st segs hne
      (fun seg hs => (hseg seg hs).1) (fun seg hs => (hseg seg hs).2) hj
    rw [hw]
    exact ⟨o, ho, h2 hlast⟩

/-- C9 (amended) at the prefix key `["charm-info", "precise"]`. -/
theorem wire_roundtrip_witness :
    ∃ o, serveStats demoStore (.fresh false)
        ⟨"/stats/counter/" ++ CounterKey.wire ⟨["charm-info", "precise"], true⟩, noForm⟩ ()
          = some o ∧
      o.calls = [Call.SumCounter ["charm-info", "precise"] true] :=
  wire_roundtrip demoStore (.fresh false) noForm () ⟨["charm-info", "precise"], true⟩
    (by decide) (by decide) (by decide)

/-- C9 as stated fails: the exact key `["a", "*"]` has the wire form `a:*`,
which `serveStats` parses as the prefix query over `["a"]`. -/
theorem wire_roundtrip_fails_on_star_segment :
    CounterKey.wire ⟨["a", "*"], false⟩ = "a:*" ∧
    (serveStats demoStore (.fresh false)
        ⟨"/stats/counter/" ++ CounterKey.wire ⟨["a", "*"], false⟩, noForm⟩ ()).map
        (fun o => o.calls) = some [Call.SumCounter ["a"] true] ∧
    Call.SumCounter ["a"] true ≠ Call.SumCounter ["a", "*"] false := by
  decide

/-! ## The configuration validator: theorems -/

theorem malformedField_none (F : Formats) (d : Document) (h : malformedField F d = none)
    (f : String × (String → Bool)) (hf : f ∈ typedChecks F) (hraw : d.value f.1 ≠ "") :
    f.2 (d.value f.1) = true := by
  unfold malformedField at h
  rw [Option.map_eq_none', List.find?_eq_none] at h
  have := h f hf
  simpa [hraw] using this

theorem malformedField_some (F : Formats) (d : Document) (key : String)
    (h : malformedField F d = some key) :
    ∃ f ∈ typedChecks F, f.1 = key ∧ d.value key ≠ "" ∧ f.2 (d.value key) = false := by
  unfold malformedField at h
  obtain ⟨f, hf, rfl⟩ := Option.map_eq_some'.mp h
  have h1 := List.find?_some hf
  have h2 := List.mem_of_find?_eq_some hf
  simp only [Bool.and_eq_true, decide_eq_true_eq, Bool.not_eq_true'] at h1
  exact ⟨f, h2, rfl, h1.1, h1.2⟩

theorem requiredTable_build (F : Formats) (d : Document) (h : malformedField F d = none) :
    requiredTable (build F d) =
      unconditionalFields.map (fun f => (f.1, decide (d.value f.2 ≠ ""), true)) ++
      swiftFields.map (fun f => (f.1, decide (d.value f.2 ≠ ""),
        decide (d.value "blobstore" = "swift"))) := by
  have hm : (typedValue F.authMode (d.value "swift-authmode")).isSome
      = decide (d.value "swift-authmode" ≠ "") := by
    unfold typedValue
    by_cases hraw : d.value "swift-authmode" = ""
    · simp [hraw]
    · have := malformedField_none F d h
        ("swift-authmode", fun raw => (F.authMode raw).isSome) (by simp [typedChecks]) hraw
      simp only at this
      simp [hraw, this]
  simp only [requiredTable, build, unconditionalFields, swiftFields, hm, List.map_cons,
    List.map_nil, List.cons_append, List.nil_append]

theorem missingFields_build (F : Formats) (d : Document) (h : malformedField F d = none) :
    missingFields (build F d) = absentRequired d := by
  unfold missingFields absentRequired
  rw [requiredTable_build F d h, List.filter_append, List.map_append, List.filter_append,
    List.map_append, List.filter_map, List.filter_map, List.map_map, List.map_map]
  by_cases hb : d.value "blobstore" = "swift"
  · simp [hb, Function.comp_def]
  · simp [hb, Function.comp_def]

theorem decode_ok (F : Formats) (d : Document) (c : Config) (h : decode F d = .ok c) :
    malformedField F d = none ∧ c = build F d := by
  unfold decode at h
  split at h
  · cases h
  · rename_i hn
    cases h
    exact ⟨hn, rfl⟩

/-- C10: reading a configuration document decodes it and then validates the
configuration.  A document with a malformed typed value is answered with the
decode error of that field, validation being short-circuited; this happens
exactly when some typed field is given a text its format rejects.  For every
other document validation fails exactly when some required field is absent; it
then returns no configuration and the single error
`missing fields f1, f2, ... in config file` listing every absent required field
in declared order (`mongo-url`, `api-addr`, `auth-username`, `auth-password`,
then, only when `blobstore` is `swift`, the seven swift fields).  Whatever the
formats, the empty document yields the four unconditional names and the
document `blobstore: swift` all eleven. -/
theorem readDocument_missing_fields (F : Formats) (d : Document) :
    ((∃ e, decode F d = .error e) ↔
      ∃ f ∈ typedChecks F, d.value f.1 ≠ "" ∧ f.2 (d.value f.1) = false) ∧
    (∀ e, decode F d = .error e →
      readDocument F d = .error e ∧ ∃ key, e = ConfigError.decode key) ∧
    (∀ c, decode F d = .ok c → absentRequired d = [] → readDocument F d = .ok c) ∧
    (∀ c, decode F d = .ok c → absentRequired d ≠ [] → readDocument F d =
      .error (ConfigError.missing
        ("missing fields " ++ strings.Join (absentRequired d) ", " ++ " in config file"))) ∧
    readDocument F [] = .error (ConfigError.missing
      "missing fields mongo-url, api-addr, auth-username, auth-password in config file") ∧
    readDocument F [("blobstore", "swift")] = .error (ConfigError.missing
      ("missing fields mongo-url, api-addr, auth-username, auth-password, swift-auth-url, "
        ++ "swift-username, swift-secret, swift-bucket, swift-region, swift-tenant, "
        ++ "swift-auth-mode in config file")) := by
  refine ⟨⟨fun ⟨e, he⟩ => ?_, fun ⟨f, hf, hraw, hbad⟩ => ?_⟩, fun e he => ?_, fun c hc h => ?_,
    fun c hc h => ?_, rfl, rfl⟩
  · unfold decode at he
    split at he
    · rename_i key hk
      obtain ⟨f, hf, rfl, h1, h2⟩ := malformedField_some F d key hk
      exact ⟨f, hf, h1, h2⟩
    · cases he
  · cases hm : malformedField F d with
    | some key => exact ⟨ConfigError.decode key, by unfold decode; rw [hm]⟩
    | none =>
      have := malformedField_none F d hm f hf hraw
      rw [hbad] at this
      cases this
  · refine ⟨by unfold readDocument; rw [he], ?_⟩
    unfold decode at he
    split at he
    · cases he
      exact ⟨_, rfl⟩
    · cases he
  · obtain ⟨hn, rfl⟩ := decode_ok F d c hc
    unfold readDocument validate
    rw [hc]
    simp only
    rw [missingFields_build F d hn, h]
    rfl
  · obtain ⟨hn, rfl⟩ := decode_ok F d c hc
    unfold readDocument validate
    rw [hc]
    simp only
    rw [missingFields_build F d hn, if_neg (fun e => h (List.length_eq_zero.mp e))]

/-- C10 on three documents: `blobstore: swift` decodes and lacks all eleven
required fields; `request-timeout: xyz` and a document with every required
field and `swift-authmode: bogus` are answered with a decode error. -/
theorem readDocument_missing_fields_witness :
    readDocument demoFormats [("blobstore", "swift")] = .error (ConfigError.missing
      ("missing fields " ++ strings.Join (absentRequired [("blobstore", "swift")]) ", "
        ++ " in config file")) ∧
    readDocument demoFormats [("request-timeout", "xyz")]
      = .error (ConfigError.decode "request-timeout") ∧
    readDocument demoFormats [("mongo-url", "localhost:23456"), ("api-addr", "blah:2324"),
        ("auth-username", "myuser"), ("auth-password", "mypasswd"), ("blobstore", "swift"),
        ("swift-auth-url", "https://foo.com"), ("swift-username", "bob"),
        ("swift-secret", "secret"), ("swift-bucket", "bucket"), ("swift-region", "somewhere"),
        ("swift-tenant", "a-tenant"), ("swift-authmode", "bogus")]
      = .error (ConfigError.decode "swift-authmode") :=
  ⟨(readDocument_missing_fields demoFormats [("blobstore", "swift")]).2.2.2.1 _ (by rfl)
      (by decide),
    ((readDocument_missing_fields demoFormats [("request-timeout", "xyz")]).2.1 _ (by rfl)).1,
    ((readDocument_missing_fields demoFormats [("mongo-url", "localhost:23456"),
        ("api-addr", "blah:2324"),
        ("auth-username", "myuser"), ("auth-password", "mypasswd"), ("blobstore", "swift"),
        ("swift-auth-url", "https://foo.com"), ("swift-username", "bob"),
        ("swift-secret", "secret"), ("swift-bucket", "bucket"), ("swift-region", "somewhere"),
        ("swift-tenant", "a-tenant"), ("swift-authmode", "bogus")]).2.1 _ (by rfl)).1⟩

end Charmstore
